import Mathlib

/-!
Shallow embedding of the streaming quality-metrics engine of fastqp
(src/fastqp/cli.py, function get_metrics) and proofs about the claims of
its specification.

Modelling conventions:
* A Python string is a `List Char`; a FASTQ or SAM record is the `Read`
  structure below (`mdRef = none` models `parse_md` raising `KeyError`).
* The defaultdict counter tallies of get_metrics are represented by
  their increment-event lists; the count a tally maps a key to is the
  number of events carrying that key (`List.count` / `List.countP`).
  A defaultdict-of-counters and this representation agree on the count
  held at every key (a defaultdict reports 0 at an absent key).
* Python integers are `Nat`/`Int`; the true divisions performed by the
  reporting and derived-statistics code are modelled exactly over `ℚ`.
* `sys.exit(message)` is `Except.error message`; CPython gives such an
  exit the status 1 (see `exitStatusOf`).
* The estimation prologue of get_metrics (cli.py lines 42-110) is file
  I/O through external readers; its result `est_nlines` (`None` for
  streamed input) is an input of `strideOfEst`, which models the stride
  selection of lines 111-125.
* `scipy.stats.linregress` and the plotting/percentile helpers are
  external collaborators: they appear as function parameters (`reg`,
  `perc`) of the derived-statistics definitions.
* get_metrics reads the name `args` (cli.py lines 157-159) which is not
  bound anywhere in its scope; the two Boolean flags it would carry are
  modelled as the ambient `Args` record inside `Config`.
-/

namespace Fastqp

/-- A quality-tally key: during streaming the keys are quality symbols
(characters); cli.py lines 245-247 replace them by integer scores. -/
inductive QSym where
  | chr (c : Char)
  | num (z : Int)
deriving DecidableEq

/-- An input record as the loop of get_metrics sees it: `isSam` tells a
`simplesam.Sam` record from a FASTQ record; `mdRef` is the reference
sequence `read.parse_md()` would derive (`none` when that raises). -/
structure Read where
  isSam : Bool
  mapped : Bool
  reverse : Bool
  seq : List Char
  qual : List Char
  mdRef : Option (List Char)
deriving DecidableEq

/-- The two role-filter flags that the free name `args` of cli.py lines
157-159 would carry. -/
structure Args where
  aligned_only : Bool
  unaligned_only : Bool
deriving DecidableEq

/-- The configuration of one get_metrics run (function parameters plus
the sampling stride `n` chosen by the setup code). -/
structure Config where
  n : Nat
  leftlimit : Int
  rightlimit : Int
  kmer : Nat
  count_duplicates : Bool
  args : Args
deriving DecidableEq

/-- The mutable state of the streaming pass: the tallies (as event
lists), the duplicate-detector contents, the duplicate counter and the
processed-read counter `act_nlines`. -/
structure MetricsState where
  read_len : List Nat
  cycle_nuc : List (Int × Char)
  cycle_qual : List (Int × QSym)
  cycle_gc : List Nat
  cycle_kmers : List (Int × List Char)
  cycle_mismatch : List (Char × Int × Char)
  bloom : List (List Char)
  duplicates : Nat
  act_nlines : Nat
deriving DecidableEq

/-- All tallies start empty (cli.py lines 132-151). -/
def initState : MetricsState :=
  { read_len := []
    cycle_nuc := []
    cycle_qual := []
    cycle_gc := []
    cycle_kmers := []
    cycle_mismatch := []
    bloom := []
    duplicates := 0
    act_nlines := 0 }

/-- The cycle-window trimming of cli.py lines 172-189.  A Python slice
`s[a:b]` with `0 ≤ a`, `0 < b` is `(s.take b).drop a` and `s[a:]` is
`s.drop a`; slicing never raises `IndexError`, so the two handlers at
lines 179-181 and 187-189 are unreachable and have no counterpart here.
When no branch of the if/elif chain applies the sequence is untouched. -/
def trim (ll rl : Int) (s : List Char) : List Char :=
  if ll = 1 ∧ rl < 0 then s
  else if 1 ≤ ll ∧ 0 < rl then (s.take rl.toNat).drop (ll - 1).toNat
  else if 1 < ll ∧ rl < 0 then s.drop (ll - 1).toNat
  else s

/-- Sequence in sequencing order: a reverse-strand SAM read is reversed
(cli.py lines 161-166); FASTQ reads are taken as stored. -/
def orientedSeq (r : Read) : List Char :=
  if r.isSam && r.reverse then r.seq.reverse else r.seq

/-- Quality string in sequencing order (cli.py lines 161-166). -/
def orientedQual (r : Read) : List Char :=
  if r.isSam && r.reverse then r.qual.reverse else r.qual

/-- The trimmed sequence the tallies see. -/
def trimmedSeq (cfg : Config) (r : Read) : List Char :=
  trim cfg.leftlimit cfg.rightlimit (orientedSeq r)

/-- The trimmed quality string the tallies see. -/
def trimmedQual (cfg : Config) (r : Read) : List Char :=
  trim cfg.leftlimit cfg.rightlimit (orientedQual r)

/-- A read survives the role filters of cli.py lines 155-159 (they only
apply to SAM records). -/
def passesFilter (cfg : Config) (r : Read) : Bool :=
  !(r.isSam && cfg.args.aligned_only && !r.mapped) &&
    !(r.isSam && cfg.args.unaligned_only && r.mapped)

/-- Modelled from the spec: the helper `gc` lives in the fastqp package
root, which is not under src/; the spec (section 4.3 step 4 and the
section 8 scenario "ACGT" has GC percentage 50) defines it as the
integer GC percentage, the count of G and C over the sequence length. -/
def gc (s : List Char) : Nat :=
  (100 * (s.count 'G' + s.count 'C')) / s.length

/-- Modelled from the spec: the helper `window` lives in the fastqp
package root, which is not under src/; the spec (glossary: kmer) defines
it as the sliding window of all contiguous length-`k` substrings. -/
def window (s : List Char) (k : Nat) : List (List Char) :=
  (List.range (s.length + 1 - k)).map (fun i => (s.drop i).take k)

/-- The nucleotide-by-cycle increments of one read: cli.py lines
201-202, `for i, (s, q) in enumerate(zip(seq, qual)):
cycle_nuc[leftlimit + i][s] += 1`. -/
def nucEvents (ll : Int) (seq qual : List Char) : List (Int × Char) :=
  (seq.zip qual).enum.map (fun e => (ll + (e.1 : Int), e.2.1))

/-- The quality-by-cycle increments of one read: cli.py line 203,
`cycle_qual[leftlimit + i][q] += 1`. -/
def qualEvents (ll : Int) (seq qual : List Char) : List (Int × QSym) :=
  (seq.zip qual).enum.map (fun e => (ll + (e.1 : Int), QSym.chr e.2.2))

/-- The kmer-by-cycle increments of one read: cli.py lines 209-210. -/
def kmerEvents (ll : Int) (k : Nat) (seq : List Char) : List (Int × List Char) :=
  (window seq k).enum.map (fun e => (ll + (e.1 : Int), e.2))

/-- The mismatch-by-cycle increments of one read: cli.py lines 215-220.
`cycle_mismatch[r]` only holds the keys C, G, A, T; any other reference
base raises `KeyError`, which line 220 swallows, dropping that single
observation. -/
def mismatchEvents (ll : Int) (seq ref : List Char) : List (Char × Int × Char) :=
  (((seq.zip ref).enum.filter
      (fun e => e.2.1 != e.2.2 &&
        (e.2.2 == 'C' || e.2.2 == 'G' || e.2.2 == 'A' || e.2.2 == 'T'))).map
    (fun e => (e.2.2, ll + (e.1 : Int), e.2.1)))

/-- The tally block of the loop body (cli.py lines 193-232) for a read
that survived the filters and the empty-window check, given its trimmed
sequence and quality.  The sequential mutations of the source touch
disjoint fields, so they are written as one record update; the duplicate
test reads the bloom state before any insertion, as in lines 195-199.
The progress notice of lines 224-231 only writes to stderr and has no
state. -/
def tallyRead (cfg : Config) (st : MetricsState) (r : Read)
    (seq qual : List Char) : MetricsState :=
  { read_len := st.read_len ++ [qual.length]
    cycle_nuc := st.cycle_nuc ++ nucEvents cfg.leftlimit seq qual
    cycle_qual := st.cycle_qual ++ qualEvents cfg.leftlimit seq qual
    cycle_gc := st.cycle_gc ++ [gc seq]
    cycle_kmers := st.cycle_kmers ++ kmerEvents cfg.leftlimit cfg.kmer seq
    cycle_mismatch := st.cycle_mismatch ++
      (if r.isSam && r.mapped then
        (match r.mdRef with
         | some ref => mismatchEvents cfg.leftlimit seq ref
         | none => [])
       else [])
    bloom :=
      if cfg.count_duplicates && !(decide (seq ∈ st.bloom)) then
        st.bloom ++ [seq]
      else st.bloom
    duplicates := st.duplicates +
      (if cfg.count_duplicates && decide (seq ∈ st.bloom) then 1 else 0)
    act_nlines := st.act_nlines + cfg.n }

/-- One iteration of the read loop (cli.py lines 154-232).  The two
role-filter branches `continue` immediately, reaching neither a tally
nor the `act_nlines += n` of line 232; the empty-window branch of lines
190-192 adds `n` to `act_nlines` and nothing else. -/
def processRead (cfg : Config) (st : MetricsState) (r : Read) : MetricsState :=
  if r.isSam && cfg.args.aligned_only && !r.mapped then st
  else if r.isSam && cfg.args.unaligned_only && r.mapped then st
  else
    let seq := trimmedSeq cfg r
    let qual := trimmedQual cfg r
    if seq.length = 0 then { st with act_nlines := st.act_nlines + cfg.n }
    else tallyRead cfg st r seq qual

/-- The whole streaming pass over the subsampled read stream. -/
def streamReads (cfg : Config) (reads : List Read) (st : MetricsState) : MetricsState :=
  reads.foldl (processRead cfg) st

/-- The fatal empty-input message of cli.py line 112. -/
def emptyMsg : String :=
  "The input file appears empty. Please check the file for data."

/-- Stride selection, cli.py lines 111-125.  `est` is `est_nlines` as
the estimation prologue left it (`none` when the input is streamed, in
which case lines 84-110 already set `n`, passed here as `n0`).
`math.floor(est_nlines / nreads)` is natural-number division. -/
def strideOfEst (binsize : Option Nat) (nreads n0 : Nat) :
    Option Nat → Except String Nat
  | some 0 => Except.error emptyMsg
  | some est =>
    match binsize with
    | some b => Except.ok b
    | none => Except.ok (if 1 ≤ est / nreads then est / nreads else 1)
  | none => Except.ok n0

/-- CPython `sys.exit(message)` with a string argument exits with
status 1; a normal return exits with status 0. -/
def exitStatusOf {α : Type} : Except String α → Nat
  | Except.error _ => 1
  | Except.ok _ => 0

/-- get_metrics after the estimation prologue: pick the stride, then
run the streaming pass from the empty tallies.  An error from the setup
aborts before any read is consumed. -/
def getMetrics (cfg : Config) (binsize : Option Nat) (nreads n0 : Nat)
    (est : Option Nat) (reads : List Read) : Except String MetricsState :=
  match strideOfEst binsize nreads n0 est with
  | Except.error e => Except.error e
  | Except.ok n => Except.ok (streamReads { cfg with n := n } reads initState)

/-! ## Derived statistics (cli.py lines 234-285) -/

/-- `positions = sorted(cycle_qual.keys())`, cli.py line 234: the
distinct cycle positions carrying a quality count, in ascending order. -/
def qualPositions (st : MetricsState) : List Int :=
  List.insertionSort (fun a b => a ≤ b) ((st.cycle_qual.map (fun e => e.1)).dedup)

/-- The in-place re-keying of one quality key performed by cli.py line
247: `v[ord(str(q)) - 33] = v.pop(q)`.  During streaming only character
keys are created, so only the first branch is ever exercised. -/
def rekeySym : QSym → QSym
  | QSym.chr c => QSym.num ((c.toNat : Int) - 33)
  | QSym.num z => QSym.num z

/-- The effect of the quantile loop of cli.py lines 245-247 on the
quality-by-cycle tally: every symbol key is replaced by its integer
score; `ord` is injective and no integer keys pre-exist, so this is a
plain re-keying of the counts. -/
def rekeyQual (evs : List (Int × QSym)) : List (Int × QSym) :=
  evs.map (fun e => (e.1, rekeySym e.2))

/-- The quantile fractions of cli.py line 242. -/
def quantileValues : List ℚ := [1/20, 1/4, 1/2, 3/4, 19/20]

/-- The count held by the nucleotide-by-cycle tally at position `i` for
base `b`. -/
def nucCount (st : MetricsState) (i : Int) (b : Char) : Nat :=
  st.cycle_nuc.count (i, b)

/-- Per-position GC percentage, cli.py lines 276-285: the quotient
`sum([C,G]) / sum([C,G,A,T]) * 100`, with the `ZeroDivisionError`
handler of lines 283-284 turning a zero denominator into 0. -/
def posGC (st : MetricsState) (i : Int) : ℚ :=
  let c := nucCount st i 'C'
  let g := nucCount st i 'G'
  let a := nucCount st i 'A'
  let t := nucCount st i 'T'
  if c + g + a + t = 0 then 0
  else ((c : ℚ) + g) / ((c : ℚ) + g + a + t) * 100

/-- The universe of observed kmers, cli.py lines 259-260. -/
def kmerUniverse (st : MetricsState) : List (List Char) :=
  (st.cycle_kmers.map (fun e => e.2)).dedup

/-- `sorted(cycle_kmers.keys())`: the positions at which any kmer was
counted, cli.py line 266. -/
def kmerPositions (st : MetricsState) : List Int :=
  List.insertionSort (fun a b => a ≤ b) ((st.cycle_kmers.map (fun e => e.1)).dedup)

/-- The (position, count) series handed to the regression for one kmer,
cli.py lines 265-266; a defaultdict lookup of an absent kmer reports 0. -/
def kmerCounts (st : MetricsState) (k : List Char) : List (Int × Nat) :=
  (kmerPositions st).map (fun i => (i, st.cycle_kmers.count (i, k)))

/-- The flagged-bias accumulation loop of cli.py lines 264-273: a kmer
together with its regression slope and p-value joins `bad_kmers` exactly
when `abs(slope) > 2 and p_value < 0.05`.  `reg` stands for the external
`scipy.stats.linregress` collaborator. -/
def badKmersRaw (reg : List (Int × Nat) → ℚ × ℚ) (st : MetricsState) :
    List (List Char × ℚ × ℚ) :=
  (kmerUniverse st).filterMap (fun k =>
    let sp := reg (kmerCounts st k)
    if 2 < |sp.1| ∧ sp.2 < 1/20 then some (k, sp) else none)

/-- Comparison of flagged kmers by p-value (the sort key of cli.py line
274, `key=lambda x: x[2]`). -/
def pLe (x y : List Char × ℚ × ℚ) : Prop := x.2.2 ≤ y.2.2

instance : DecidableRel pLe := fun x y =>
  inferInstanceAs (Decidable (x.2.2 ≤ y.2.2))

instance : IsTotal (List Char × ℚ × ℚ) pLe :=
  ⟨fun x y => le_total x.2.2 y.2.2⟩

instance : IsTrans (List Char × ℚ × ℚ) pLe :=
  ⟨fun _ _ _ h1 h2 => le_trans h1 h2⟩

/-- `bad_kmers = sorted(bad_kmers, key=lambda x: x[2])[:10]`, cli.py
line 274 (the stable Python sort modelled by insertion sort, which is
also stable). -/
def badKmersFinal (reg : List (Int × Nat) → ℚ × ℚ) (st : MetricsState) :
    List (List Char × ℚ × ℚ) :=
  (List.insertionSort pLe (badKmersRaw reg st)).take 10

/-- The derived-statistics phase, cli.py lines 234-285, as a state
transformer: its only effect on the tallies is the in-place re-keying
of `cycle_qual` by the quantile loop; the quantile table, the
per-position GC percentages and the flagged-kmer list are computed from
the (re-keyed) state.  `perc` stands for the external `percentile`
helper, applied to the events of one position. -/
def derivedStatistics (reg : List (Int × Nat) → ℚ × ℚ)
    (perc : List (Int × QSym) → ℚ → ℚ) (st : MetricsState) :
    MetricsState × (List (List ℚ) × List ℚ × List (List Char × ℚ × ℚ)) :=
  let st2 : MetricsState := { st with cycle_qual := rekeyQual st.cycle_qual }
  let quants := (qualPositions st2).map (fun pos =>
    quantileValues.map (perc (st2.cycle_qual.filter (fun e => e.1 == pos))))
  let pgc := (qualPositions st2).map (posGC st2)
  (st2, (quants, pgc, badKmersFinal reg st2))

/-- The duplicate-rate value written by cli.py line 331:
`duplicates / act_nlines` (Python true division). -/
def dupRateValue (st : MetricsState) : ℚ :=
  (st.duplicates : ℚ) / (st.act_nlines : ℚ)

/-! ## Claim-side definitions

These restate quantities in the words of the specification, to be
compared with the quantities the embedded code produces. -/

/-- A read is retained when it survives the role filters and its
trimmed window is nonempty. -/
def retainedB (cfg : Config) (r : Read) : Bool :=
  passesFilter cfg r && decide ((trimmedSeq cfg r).length ≠ 0)

/-- The trimmed window of a retained read covers cycle position `pos` when
`pos` lies among its `leftlimit + i` cycles. -/
def coversB (cfg : Config) (r : Read) (pos : Int) : Bool :=
  retainedB cfg r &&
    decide (cfg.leftlimit ≤ pos ∧
      pos < cfg.leftlimit + ((trimmedSeq cfg r).length : Int))

/-- Number of retained reads of the stream whose trimmed window covers
position `pos`. -/
def coveringCount (cfg : Config) (reads : List Read) (pos : Int) : Nat :=
  reads.countP (fun r => coversB cfg r pos)

/-- Total count over all symbols of the nucleotide tally at one cycle
position. -/
def nucAt (st : MetricsState) (pos : Int) : Nat :=
  st.cycle_nuc.countP (fun e => decide (e.1 = pos))

/-- Total count over all symbols of the quality tally at one cycle
position. -/
def qualAt (st : MetricsState) (pos : Int) : Nat :=
  st.cycle_qual.countP (fun e => decide (e.1 = pos))

/-- Specification-side duplicate count: the number of retained reads
whose trimmed sequence already occurred as the trimmed sequence of an
earlier retained read (`seen` carries the trimmed sequences of the
retained reads already consumed). -/
def specDupCount (cfg : Config) : List Read → List (List Char) → Nat
  | [], _ => 0
  | r :: rest, seen =>
    if retainedB cfg r then
      (if trimmedSeq cfg r ∈ seen then 1 else 0) +
        specDupCount cfg rest (trimmedSeq cfg r :: seen)
    else specDupCount cfg rest seen

/-! ## Shared control-flow lemmas -/

/-- The two sequential filter branches of cli.py lines 155-159 followed
by the window/tally code are equivalent to one test of `passesFilter`. -/
lemma processRead_eq (cfg : Config) (st : MetricsState) (r : Read) :
    processRead cfg st r =
      if passesFilter cfg r then
        (if (trimmedSeq cfg r).length = 0
         then { st with act_nlines := st.act_nlines + cfg.n }
         else tallyRead cfg st r (trimmedSeq cfg r) (trimmedQual cfg r))
      else st := by
  unfold processRead passesFilter
  cases r.isSam <;> cases cfg.args.aligned_only <;>
    cases cfg.args.unaligned_only <;> cases r.mapped <;> simp

lemma processRead_passes (cfg : Config) (st : MetricsState) (r : Read)
    (hpass : passesFilter cfg r = true) :
    processRead cfg st r =
      if (trimmedSeq cfg r).length = 0
      then { st with act_nlines := st.act_nlines + cfg.n }
      else tallyRead cfg st r (trimmedSeq cfg r) (trimmedQual cfg r) := by
  rw [processRead_eq, hpass]
  simp

lemma processRead_filtered (cfg : Config) (st : MetricsState) (r : Read)
    (hpass : passesFilter cfg r = false) :
    processRead cfg st r = st := by
  rw [processRead_eq, hpass]
  simp

/-! ## Concrete fixtures -/

/-- The default configuration of get_metrics: leftlimit 1, rightlimit
-1, kmer 5, no duplicate counting, both role-filter flags clear;
stride 1. -/
def cfgDefault : Config :=
  { n := 1, leftlimit := 1, rightlimit := -1, kmer := 5,
    count_duplicates := false,
    args := { aligned_only := false, unaligned_only := false } }

/-- An unmapped SAM read of length 2. -/
def samUnmapped : Read :=
  { isSam := true, mapped := false, reverse := false,
    seq := ['A', 'C'], qual := ['I', 'I'], mdRef := none }

/-- The default configuration with the aligned-only role filter set. -/
def cfgAlignedOnly : Config :=
  { cfgDefault with args := { aligned_only := true, unaligned_only := false } }

/-- A plain FASTQ read of length 2. -/
def fqRead : Read :=
  { isSam := false, mapped := false, reverse := false,
    seq := ['A', 'C'], qual := ['I', 'I'], mdRef := none }

/-- The default configuration with leftlimit 0. -/
def cfgLeftZero : Config := { cfgDefault with leftlimit := 0 }

/-! ## C1 -/

/-- C1: when the estimated record count is available and positive, no
binsize override is given and the sample budget `nreads` is positive
(its default is 2,000,000), the selected stride is
`max 1 (floor (est_nlines / nreads))`; re-running the selection on the
same inputs yields the same stride. -/
theorem c1_stride (nreads n0 est : Nat) (hest : 0 < est) (hnr : 0 < nreads) :
    strideOfEst none nreads n0 (some est) =
      Except.ok (max 1 (est / nreads)) ∧
    strideOfEst none nreads n0 (some est) =
      strideOfEst none nreads n0 (some est) := by
  refine ⟨?_, rfl⟩
  cases est with
  | zero => exact absurd hest (by omega)
  | succ k =>
    have hnr2 : 0 < nreads := hnr
    simp only [strideOfEst]
    rw [Nat.max_def]

/-- C1 witness: 5,000,000 estimated reads at the default budget of
2,000,000 give stride 2. -/
theorem c1_stride_witness :
    strideOfEst none 2000000 1 (some 5000000) =
      Except.ok (max 1 (5000000 / 2000000)) :=
  (c1_stride 2000000 1 5000000 (by decide) (by decide)).1

/-! ## C2 -/

/-- C2: an estimated record count of exactly 0 makes get_metrics fail
fatally with the explicit empty-input message and exit status 1 (hence
non-zero), before the main read loop starts: the outcome does not
depend on the read stream and no tally state is ever produced. -/
theorem c2_empty_input (cfg : Config) (binsize : Option Nat)
    (nreads n0 : Nat) (reads : List Read) :
    getMetrics cfg binsize nreads n0 (some 0) reads = Except.error emptyMsg ∧
    exitStatusOf (getMetrics cfg binsize nreads n0 (some 0) reads) = 1 ∧
    getMetrics cfg binsize nreads n0 (some 0) reads =
      getMetrics cfg binsize nreads n0 (some 0) [] :=
  ⟨rfl, rfl, rfl⟩

/-! ## C5 -/

/-- C5 counterexample: a SAM read dropped by the aligned-only filter
does not advance act_nlines by the stride: the skip branch bypasses the
counter update at the end of the loop body, so the claim fails on the
code. -/
theorem c5_counterexample :
    (processRead cfgAlignedOnly initState samUnmapped).act_nlines ≠
      initState.act_nlines + cfgAlignedOnly.n := by decide

/-- C5 amended: a SAM read skipped by the role filters (aligned-only
set and read unmapped, or unaligned-only set and read mapped) leaves
the entire state unchanged: no tally is incremented and the logical
read counter act_nlines is not advanced either. -/
theorem c5_filtered_reads (cfg : Config) (st : MetricsState) (r : Read)
    (hsam : r.isSam = true)
    (h : (cfg.args.aligned_only = true ∧ r.mapped = false) ∨
         (cfg.args.unaligned_only = true ∧ r.mapped = true)) :
    processRead cfg st r = st := by
  unfold processRead
  rcases h with ⟨h1, h2⟩ | ⟨h1, h2⟩ <;> simp [hsam, h1, h2]

/-- C5 witness: the amended statement at a concrete unmapped SAM read
under the aligned-only filter. -/
theorem c5_filtered_reads_witness :
    processRead cfgAlignedOnly initState samUnmapped = initState :=
  c5_filtered_reads cfgAlignedOnly initState samUnmapped rfl (Or.inl ⟨rfl, rfl⟩)

/-! ## C8 -/

/-- C8: the derived per-position GC percentage equals
100 * (C+G) / (A+C+G+T) over the nucleotide tally of the position, and is
defined as 0 when that denominator is zero - the division-by-zero
branch yields 0 instead of propagating an error. -/
theorem c8_pos_gc (st : MetricsState) (i : Int) :
    posGC st i =
      if nucCount st i 'A' + nucCount st i 'C' +
          nucCount st i 'G' + nucCount st i 'T' = 0
      then 0
      else 100 * ((nucCount st i 'C' : ℚ) + (nucCount st i 'G' : ℚ)) /
        ((nucCount st i 'A' : ℚ) + (nucCount st i 'C' : ℚ) +
         (nucCount st i 'G' : ℚ) + (nucCount st i 'T' : ℚ)) := by
  simp only [posGC]
  by_cases h : nucCount st i 'A' + nucCount st i 'C' +
      nucCount st i 'G' + nucCount st i 'T' = 0
  · rw [if_pos h, if_pos (by omega)]
  · rw [if_neg h, if_neg (by omega)]
    rw [div_mul_eq_mul_div, mul_comm]
    congr 1
    ring

/-! ## C10 -/

/-- C10 counterexample: with leftlimit 0 a read is tallied untrimmed
but at cycle keys leftlimit + i, so the resulting state differs from
the state the default window (leftlimit 1, rightlimit -1) produces:
the claim that the two agree fails on the code. -/
theorem c10_counterexample :
    processRead cfgLeftZero initState fqRead ≠
      processRead cfgDefault initState fqRead := by decide

/-- C10 amended: for a read processed with leftlimit < 1, no trimming
branch applies regardless of rightlimit and no error is raised: the
sequence and quality are tallied untrimmed, with cycle tallies keyed at
leftlimit + i (shifted relative to the default window when
leftlimit is not 1). -/
theorem c10_left_limit_zero (cfg : Config) (st : MetricsState) (r : Read)
    (hll : cfg.leftlimit < 1)
    (hpass : passesFilter cfg r = true)
    (hlen : (orientedSeq r).length ≠ 0) :
    (∀ s : List Char, trim cfg.leftlimit cfg.rightlimit s = s) ∧
    processRead cfg st r =
      tallyRead cfg st r (orientedSeq r) (orientedQual r) := by
  have htrim : ∀ s : List Char, trim cfg.leftlimit cfg.rightlimit s = s := by
    intro s
    unfold trim
    rw [if_neg (by omega), if_neg (by omega), if_neg (by omega)]
  refine ⟨htrim, ?_⟩
  rw [processRead_passes cfg st r hpass]
  rw [if_neg (by unfold trimmedSeq; rw [htrim]; exact hlen)]
  unfold trimmedSeq trimmedQual
  rw [htrim, htrim]

/-- C10 witness: the amended statement at a concrete FASTQ read under
leftlimit 0. -/
theorem c10_left_limit_zero_witness :
    (∀ s : List Char, trim cfgLeftZero.leftlimit cfgLeftZero.rightlimit s = s) ∧
    processRead cfgLeftZero initState fqRead =
      tallyRead cfgLeftZero initState fqRead (orientedSeq fqRead) (orientedQual fqRead) :=
  c10_left_limit_zero cfgLeftZero initState fqRead (by decide) (by decide) (by decide)

/-! ## C3 -/

/-- The length of a trimmed sequence depends only on the window and the
input length. -/
lemma trim_length (ll rl : Int) (s : List Char) :
    (trim ll rl s).length =
      if ll = 1 ∧ rl < 0 then s.length
      else if 1 ≤ ll ∧ 0 < rl then min rl.toNat s.length - (ll - 1).toNat
      else if 1 < ll ∧ rl < 0 then s.length - (ll - 1).toNat
      else s.length := by
  unfold trim
  split_ifs <;> simp [List.length_take, List.length_drop]

/-- Trimming two strings of equal length leaves equal lengths. -/
lemma trim_length_eq (ll rl : Int) {s q : List Char}
    (h : s.length = q.length) :
    (trim ll rl s).length = (trim ll rl q).length := by
  rw [trim_length, trim_length, h]

/-- A nonempty window lying entirely beyond the read is trimmed to
nothing. -/
lemma trim_outside (ll rl : Int) (s : List Char)
    (h1 : 1 ≤ ll) (h2 : (s.length : Int) < ll)
    (h3 : rl < 0 ∨ ll ≤ rl) :
    (trim ll rl s).length = 0 := by
  rw [trim_length]
  split_ifs <;> omega

/-- C3: a read that reaches the windowing step with a configured
nonempty window lying entirely outside its length, or with a trimmed
length of zero, advances the processed-read counter act_nlines by the
stride n and changes nothing else: no tally and no duplicate-detector
state is touched. -/
theorem c3_out_of_window (cfg : Config) (st : MetricsState) (r : Read)
    (hpass : passesFilter cfg r = true)
    (h : (1 ≤ cfg.leftlimit ∧
            ((orientedSeq r).length : Int) < cfg.leftlimit ∧
            (cfg.rightlimit < 0 ∨ cfg.leftlimit ≤ cfg.rightlimit)) ∨
         (trimmedSeq cfg r).length = 0) :
    processRead cfg st r = { st with act_nlines := st.act_nlines + cfg.n } := by
  have hzero : (trimmedSeq cfg r).length = 0 := by
    rcases h with ⟨h1, h2, h3⟩ | h0
    · exact trim_outside _ _ _ h1 h2 h3
    · exact h0
  rw [processRead_passes cfg st r hpass, if_pos hzero]

/-- The default configuration with leftlimit 5 (the section 8 scenario
of the spec). -/
def cfgLeft5 : Config := { cfgDefault with leftlimit := 5 }

/-- A plain FASTQ read of length 3. -/
def fqRead3 : Read :=
  { isSam := false, mapped := false, reverse := false,
    seq := ['A', 'C', 'G'], qual := ['I', 'I', 'I'], mdRef := none }

/-- C3 witness: a read of length 3 under the window leftlimit 5,
rightlimit -1 is counted but contributes to no tally. -/
theorem c3_out_of_window_witness :
    processRead cfgLeft5 initState fqRead3 =
      { initState with act_nlines := initState.act_nlines + cfgLeft5.n } :=
  c3_out_of_window cfgLeft5 initState fqRead3 (by decide)
    (Or.inl (by decide))

/-! ## C9 -/

/-- A regression collaborator for concrete runs: slope 0, p-value 1. -/
def regZero : List (Int × Nat) → ℚ × ℚ := fun _ => (0, 1)

/-- A percentile collaborator for concrete runs. -/
def percZero : List (Int × QSym) → ℚ → ℚ := fun _ _ => 0

/-- A state holding one quality count, at cycle 1 for symbol I. -/
def stOneQual : MetricsState :=
  { initState with cycle_qual := [(1, QSym.chr 'I')] }

/-- C9 counterexample: the quantile computation re-keys the
quality-by-cycle tally in place (cli.py lines 245-247), so that tally
is NOT the same mapping before and after the derived-statistics phase:
the claim fails on the code at a state holding one count for symbol I
at cycle 1. -/
theorem c9_counterexample :
    (derivedStatistics regZero percZero stOneQual).1.cycle_qual ≠
      stOneQual.cycle_qual := by decide

/-- C9 amended: the derived-statistics phase leaves every tally
unchanged except quality-by-cycle: that tally is re-keyed in place from
quality symbols to integer scores (ord - 33) by the quantile loop,
which preserves the per-position totals but changes the mapping. -/
theorem c9_derived_frame (reg : List (Int × Nat) → ℚ × ℚ)
    (perc : List (Int × QSym) → ℚ → ℚ) (st : MetricsState) :
    ((derivedStatistics reg perc st).1.read_len = st.read_len ∧
     (derivedStatistics reg perc st).1.cycle_nuc = st.cycle_nuc ∧
     (derivedStatistics reg perc st).1.cycle_gc = st.cycle_gc ∧
     (derivedStatistics reg perc st).1.cycle_kmers = st.cycle_kmers ∧
     (derivedStatistics reg perc st).1.cycle_mismatch = st.cycle_mismatch ∧
     (derivedStatistics reg perc st).1.bloom = st.bloom ∧
     (derivedStatistics reg perc st).1.duplicates = st.duplicates ∧
     (derivedStatistics reg perc st).1.act_nlines = st.act_nlines) ∧
    (derivedStatistics reg perc st).1.cycle_qual = rekeyQual st.cycle_qual ∧
    ∀ pos : Int,
      (derivedStatistics reg perc st).1.cycle_qual.countP
          (fun e => decide (e.1 = pos)) =
        st.cycle_qual.countP (fun e => decide (e.1 = pos)) := by
  refine ⟨⟨rfl, rfl, rfl, rfl, rfl, rfl, rfl, rfl⟩, rfl, ?_⟩
  intro pos
  show (rekeyQual st.cycle_qual).countP _ = _
  unfold rekeyQual
  rw [List.countP_map]
  rfl

/-! ## C4 -/

/-- Counting the events of an enumerated list whose position key equals
`pos`: exactly one index hits `pos` when `pos` falls inside the cycle
range of the list, none otherwise. -/
lemma countP_enumFrom_eq {α : Type} (ll pos : Int) (l : List α) :
    ∀ j : Nat,
      (List.enumFrom j l).countP (fun e => decide (ll + (e.1 : Int) = pos)) =
        if ll + (j : Int) ≤ pos ∧ pos < ll + (j : Int) + l.length
        then 1 else 0 := by
  induction l with
  | nil =>
    intro j
    simp only [List.enumFrom_nil, List.countP_nil, List.length_nil,
      Nat.cast_zero]
    rw [if_neg (by omega)]
  | cons a tl ih =>
    intro j
    rw [List.enumFrom_cons, List.countP_cons, ih (j + 1)]
    simp only [List.length_cons, decide_eq_true_eq]
    push_cast
    split_ifs <;> omega

/-- The nucleotide events of one read hit position `pos` once when `pos`
lies in its trimmed cycle window, never otherwise. -/
lemma countP_nucEvents (ll pos : Int) (seq qual : List Char) :
    (nucEvents ll seq qual).countP (fun e => decide (e.1 = pos)) =
      if ll ≤ pos ∧ pos < ll + ((min seq.length qual.length : Nat) : Int)
      then 1 else 0 := by
  unfold nucEvents
  rw [List.countP_map]
  show (List.enumFrom 0 (seq.zip qual)).countP
      (fun e => decide (ll + (e.1 : Int) = pos)) = _
  rw [countP_enumFrom_eq]
  simp only [Nat.cast_zero, add_zero, List.length_zip]

/-- The quality events of one read hit position `pos` once when `pos` lies
in its trimmed cycle window, never otherwise. -/
lemma countP_qualEvents (ll pos : Int) (seq qual : List Char) :
    (qualEvents ll seq qual).countP (fun e => decide (e.1 = pos)) =
      if ll ≤ pos ∧ pos < ll + ((min seq.length qual.length : Nat) : Int)
      then 1 else 0 := by
  unfold qualEvents
  rw [List.countP_map]
  show (List.enumFrom 0 (seq.zip qual)).countP
      (fun e => decide (ll + (e.1 : Int) = pos)) = _
  rw [countP_enumFrom_eq]
  simp only [Nat.cast_zero, add_zero, List.length_zip]

/-- For a well-formed read the trimmed sequence and quality have the
same length. -/
lemma trimmed_length_eq (cfg : Config) (r : Read)
    (hwf : r.seq.length = r.qual.length) :
    (trimmedSeq cfg r).length = (trimmedQual cfg r).length := by
  unfold trimmedSeq trimmedQual orientedSeq orientedQual
  cases r.isSam && r.reverse <;>
    simp only [if_true, if_false, Bool.false_eq_true, Bool.true_eq_false,
      if_neg, if_pos] <;>
    exact trim_length_eq _ _ (by simp [hwf])

/-- Effect of one loop iteration on the nucleotide total at one cycle
position. -/
lemma nucAt_processRead (cfg : Config) (st : MetricsState) (r : Read)
    (pos : Int) (hwf : r.seq.length = r.qual.length) :
    nucAt (processRead cfg st r) pos =
      nucAt st pos + (if coversB cfg r pos then 1 else 0) := by
  by_cases hpass : passesFilter cfg r
  · rw [processRead_passes cfg st r hpass]
    by_cases hz : (trimmedSeq cfg r).length = 0
    · rw [if_pos hz]
      have hc : coversB cfg r pos = false := by
        simp [coversB, retainedB, hz]
      rw [hc]
      simp [nucAt]
    · rw [if_neg hz]
      have hc : coversB cfg r pos = true ↔
          (cfg.leftlimit ≤ pos ∧
            pos < cfg.leftlimit + ((trimmedSeq cfg r).length : Int)) := by
        simp [coversB, retainedB, hpass, hz]
      unfold nucAt tallyRead
      simp only []
      rw [List.countP_append, countP_nucEvents,
        ← trimmed_length_eq cfg r hwf, min_self]
      congr 1
      by_cases hcov : cfg.leftlimit ≤ pos ∧
          pos < cfg.leftlimit + ((trimmedSeq cfg r).length : Int)
      · rw [if_pos hcov, if_pos (hc.mpr hcov)]
      · rw [if_neg hcov, if_neg (fun hb => hcov (hc.mp hb))]
  · have hp : passesFilter cfg r = false := by
      revert hpass
      cases passesFilter cfg r <;> simp
    rw [processRead_filtered cfg st r hp]
    have hc : coversB cfg r pos = false := by
      simp [coversB, retainedB, hp]
    rw [hc]
    simp

/-- Effect of one loop iteration on the quality total at one cycle
position. -/
lemma qualAt_processRead (cfg : Config) (st : MetricsState) (r : Read)
    (pos : Int) (hwf : r.seq.length = r.qual.length) :
    qualAt (processRead cfg st r) pos =
      qualAt st pos + (if coversB cfg r pos then 1 else 0) := by
  by_cases hpass : passesFilter cfg r
  · rw [processRead_passes cfg st r hpass]
    by_cases hz : (trimmedSeq cfg r).length = 0
    · rw [if_pos hz]
      have hc : coversB cfg r pos = false := by
        simp [coversB, retainedB, hz]
      rw [hc]
      simp [qualAt]
    · rw [if_neg hz]
      have hc : coversB cfg r pos = true ↔
          (cfg.leftlimit ≤ pos ∧
            pos < cfg.leftlimit + ((trimmedSeq cfg r).length : Int)) := by
        simp [coversB, retainedB, hpass, hz]
      unfold qualAt tallyRead
      simp only []
      rw [List.countP_append, countP_qualEvents,
        ← trimmed_length_eq cfg r hwf, min_self]
      congr 1
      by_cases hcov : cfg.leftlimit ≤ pos ∧
          pos < cfg.leftlimit + ((trimmedSeq cfg r).length : Int)
      · rw [if_pos hcov, if_pos (hc.mpr hcov)]
      · rw [if_neg hcov, if_neg (fun hb => hcov (hc.mp hb))]
  · have hp : passesFilter cfg r = false := by
      revert hpass
      cases passesFilter cfg r <;> simp
    rw [processRead_filtered cfg st r hp]
    have hc : coversB cfg r pos = false := by
      simp [coversB, retainedB, hp]
    rw [hc]
    simp

/-- The nucleotide total at a position after the whole pass. -/
lemma nucAt_streamReads (cfg : Config) (pos : Int) :
    ∀ (reads : List Read) (st : MetricsState),
      (∀ r ∈ reads, r.seq.length = r.qual.length) →
      nucAt (streamReads cfg reads st) pos =
        nucAt st pos + coveringCount cfg reads pos := by
  intro reads
  induction reads with
  | nil =>
    intro st h
    simp [streamReads, coveringCount]
  | cons r rest ih =>
    intro st h
    have hr := h r (List.mem_cons_self r rest)
    have hrest := fun x hx => h x (List.mem_cons_of_mem r hx)
    show nucAt (streamReads cfg rest (processRead cfg st r)) pos = _
    rw [ih (processRead cfg st r) hrest,
      nucAt_processRead cfg st r pos hr]
    unfold coveringCount
    rw [List.countP_cons]
    omega

/-- The quality total at a position after the whole pass. -/
lemma qualAt_streamReads (cfg : Config) (pos : Int) :
    ∀ (reads : List Read) (st : MetricsState),
      (∀ r ∈ reads, r.seq.length = r.qual.length) →
      qualAt (streamReads cfg reads st) pos =
        qualAt st pos + coveringCount cfg reads pos := by
  intro reads
  induction reads with
  | nil =>
    intro st h
    simp [streamReads, coveringCount]
  | cons r rest ih =>
    intro st h
    have hr := h r (List.mem_cons_self r rest)
    have hrest := fun x hx => h x (List.mem_cons_of_mem r hx)
    show qualAt (streamReads cfg rest (processRead cfg st r)) pos = _
    rw [ih (processRead cfg st r) hrest,
      qualAt_processRead cfg st r pos hr]
    unfold coveringCount
    rw [List.countP_cons]
    omega

/-- C4: after the streaming pass over well-formed reads, the total
count over all symbols of the nucleotide tally at every cycle position
equals the total of the quality tally there, and both equal the number
of retained reads whose trimmed window covers that position. -/
theorem c4_cycle_totals (cfg : Config) (reads : List Read) (pos : Int)
    (hwf : ∀ r ∈ reads, r.seq.length = r.qual.length) :
    nucAt (streamReads cfg reads initState) pos =
      qualAt (streamReads cfg reads initState) pos ∧
    nucAt (streamReads cfg reads initState) pos =
      coveringCount cfg reads pos := by
  have h1 := nucAt_streamReads cfg pos reads initState hwf
  have h2 := qualAt_streamReads cfg pos reads initState hwf
  have hn : nucAt initState pos = 0 := rfl
  have hq : qualAt initState pos = 0 := rfl
  constructor
  · rw [h1, h2, hn, hq]
  · rw [h1, hn]
    omega

/-- The section 8 scenario read: sequence ACGT, quality IIII. -/
def fqACGT : Read :=
  { isSam := false, mapped := false, reverse := false,
    seq := ['A', 'C', 'G', 'T'], qual := ['I', 'I', 'I', 'I'],
    mdRef := none }

/-- Four identical ACGT reads. -/
def reads4 : List Read := [fqACGT, fqACGT, fqACGT, fqACGT]

/-- C4 witness: the totals agree at cycle position 2 for four ACGT
reads under the default window. -/
theorem c4_cycle_totals_witness :
    nucAt (streamReads cfgDefault reads4 initState) 2 =
      qualAt (streamReads cfgDefault reads4 initState) 2 ∧
    nucAt (streamReads cfgDefault reads4 initState) 2 =
      coveringCount cfgDefault reads4 2 :=
  c4_cycle_totals cfgDefault reads4 2 (by decide)

/-! ## C6 -/

/-- C6: a kmer is placed in the flagged-bias accumulation list exactly
when the regression collaborator, applied to its per-position counts,
reports |slope| > 2 and a two-sided p-value < 0.05; the final flagged
list is a selection of at most 10 of these, ordered by ascending
p-value (most significant first). -/
theorem c6_kmer_bias (reg : List (Int × Nat) → ℚ × ℚ) (st : MetricsState) :
    (∀ k s p, ((k, s, p) ∈ badKmersRaw reg st ↔
       (k ∈ kmerUniverse st ∧ reg (kmerCounts st k) = (s, p) ∧
        2 < |s| ∧ p < 1/20))) ∧
    (badKmersFinal reg st).length ≤ 10 ∧
    List.Sorted pLe (badKmersFinal reg st) ∧
    (∀ x ∈ badKmersFinal reg st, x ∈ badKmersRaw reg st) := by
  refine ⟨?_, ?_, ?_, ?_⟩
  · intro k s p
    constructor
    · intro hmem
      rw [badKmersRaw, List.mem_filterMap] at hmem
      obtain ⟨a, ha, heq⟩ := hmem
      dsimp only at heq
      by_cases hc : 2 < |(reg (kmerCounts st a)).1| ∧
          (reg (kmerCounts st a)).2 < 1/20
      · rw [if_pos hc] at heq
        have h2 : a = k ∧ reg (kmerCounts st a) = (s, p) := by
          have := Option.some.inj heq
          exact ⟨congrArg Prod.fst this, congrArg Prod.snd this⟩
        obtain ⟨rfl, hreg⟩ := h2
        refine ⟨ha, hreg, ?_, ?_⟩
        · have := hc.1; rwa [hreg] at this
        · have := hc.2; rwa [hreg] at this
      · rw [if_neg hc] at heq
        exact absurd heq (by simp)
    · rintro ⟨hk, hreg, hs, hp⟩
      rw [badKmersRaw, List.mem_filterMap]
      refine ⟨k, hk, ?_⟩
      dsimp only
      rw [hreg, if_pos ⟨hs, hp⟩]
  · exact List.length_take_le 10 _
  · exact (List.sorted_insertionSort pLe (badKmersRaw reg st)).sublist
      (List.take_sublist 10 _)
  · intro x hx
    have h1 : x ∈ List.insertionSort pLe (badKmersRaw reg st) :=
      (List.take_sublist 10 _).subset hx
    exact (List.perm_insertionSort pLe _).subset h1

/-- A regression collaborator reporting slope 3, p-value 1/100. -/
def regBias : List (Int × Nat) → ℚ × ℚ := fun _ => (3, 1/100)

/-- A state holding one kmer count at cycle 1. -/
def stOneKmer : MetricsState :=
  { initState with cycle_kmers := [(1, ['A', 'A', 'A', 'A', 'A'])] }

/-- C6 witness: under a collaborator reporting slope 3 and p-value
1/100, the flagged list of a one-kmer state obeys the length bound. -/
theorem c6_kmer_bias_witness :
    (badKmersFinal regBias stOneKmer).length ≤ 10 :=
  (c6_kmer_bias regBias stOneKmer).2.1

/-! ## C7 -/

/-- Unfolding equation: a retained read tests its trimmed sequence
against the seen set and then records it. -/
lemma specDupCount_cons_ret (cfg : Config) (r : Read) (rest : List Read)
    (seen : List (List Char)) (h : retainedB cfg r = true) :
    specDupCount cfg (r :: rest) seen =
      (if trimmedSeq cfg r ∈ seen then 1 else 0) +
        specDupCount cfg rest (trimmedSeq cfg r :: seen) := by
  simp [specDupCount, h]

/-- Unfolding equation: a non-retained read contributes nothing. -/
lemma specDupCount_cons_skip (cfg : Config) (r : Read) (rest : List Read)
    (seen : List (List Char)) (h : retainedB cfg r = false) :
    specDupCount cfg (r :: rest) seen = specDupCount cfg rest seen := by
  simp [specDupCount, h]

/-- During the pass the duplicate-detector contents track, up to
membership, the trimmed sequences of the retained reads already
consumed, and the duplicate counter counts retained reads whose
trimmed sequence was already a member at their turn. -/
lemma duplicates_streamReads (cfg : Config)
    (hdup : cfg.count_duplicates = true) :
    ∀ (reads : List Read) (st : MetricsState) (seen : List (List Char)),
      (∀ s, s ∈ st.bloom ↔ s ∈ seen) →
      (streamReads cfg reads st).duplicates =
        st.duplicates + specDupCount cfg reads seen := by
  intro reads
  induction reads with
  | nil =>
    intro st seen hinv
    simp [streamReads, specDupCount]
  | cons r rest ih =>
    intro st seen hinv
    show (streamReads cfg rest (processRead cfg st r)).duplicates = _
    by_cases hpass : passesFilter cfg r
    · rw [processRead_passes cfg st r hpass]
      by_cases hz : (trimmedSeq cfg r).length = 0
      · rw [if_pos hz]
        have hret : retainedB cfg r = false := by
          simp [retainedB, hz]
        rw [ih { st with act_nlines := st.act_nlines + cfg.n } seen
          (fun s => hinv s)]
        rw [specDupCount_cons_skip cfg r rest seen hret]
      · rw [if_neg hz]
        have hret : retainedB cfg r = true := by
          simp [retainedB, hpass, hz]
        by_cases hmem : trimmedSeq cfg r ∈ st.bloom
        · have hseen : trimmedSeq cfg r ∈ seen := (hinv _).mp hmem
          have hbl : (tallyRead cfg st r (trimmedSeq cfg r)
              (trimmedQual cfg r)).bloom = st.bloom := by
            unfold tallyRead
            simp [hmem]
          have hinv2 : ∀ s, s ∈ (tallyRead cfg st r (trimmedSeq cfg r)
              (trimmedQual cfg r)).bloom ↔ s ∈ trimmedSeq cfg r :: seen := by
            intro s
            rw [hbl, hinv s, List.mem_cons]
            constructor
            · intro h2
              exact Or.inr h2
            · intro h2
              rcases h2 with h3 | h3
              · rw [h3]
                exact hseen
              · exact h3
          rw [ih (tallyRead cfg st r (trimmedSeq cfg r) (trimmedQual cfg r))
            (trimmedSeq cfg r :: seen) hinv2]
          have hd : (tallyRead cfg st r (trimmedSeq cfg r)
              (trimmedQual cfg r)).duplicates = st.duplicates + 1 := by
            unfold tallyRead
            simp [hdup, hmem]
          rw [hd, specDupCount_cons_ret cfg r rest seen hret, if_pos hseen]
          omega
        · have hseen : trimmedSeq cfg r ∉ seen :=
            fun hs => hmem ((hinv _).mpr hs)
          have hbl : (tallyRead cfg st r (trimmedSeq cfg r)
              (trimmedQual cfg r)).bloom = st.bloom ++ [trimmedSeq cfg r] := by
            unfold tallyRead
            simp [hdup, hmem]
          have hinv2 : ∀ s, s ∈ (tallyRead cfg st r (trimmedSeq cfg r)
              (trimmedQual cfg r)).bloom ↔ s ∈ trimmedSeq cfg r :: seen := by
            intro s
            rw [hbl]
            simp only [List.mem_append, List.mem_singleton, List.mem_cons]
            rw [hinv s]
            tauto
          rw [ih (tallyRead cfg st r (trimmedSeq cfg r) (trimmedQual cfg r))
            (trimmedSeq cfg r :: seen) hinv2]
          have hd : (tallyRead cfg st r (trimmedSeq cfg r)
              (trimmedQual cfg r)).duplicates = st.duplicates := by
            unfold tallyRead
            simp [hmem]
          rw [hd, specDupCount_cons_ret cfg r rest seen hret, if_neg hseen]
          omega
    · have hp : passesFilter cfg r = false := by
        revert hpass
        cases passesFilter cfg r <;> simp
      rw [processRead_filtered cfg st r hp]
      have hret : retainedB cfg r = false := by
        simp [retainedB, hp]
      rw [ih st seen hinv, specDupCount_cons_skip cfg r rest seen hret]

/-- The processed-read counter advances by the stride for every read
that survives the role filters (and only those). -/
lemma act_streamReads (cfg : Config) :
    ∀ (reads : List Read) (st : MetricsState),
      (streamReads cfg reads st).act_nlines =
        st.act_nlines + cfg.n * reads.countP (fun r => passesFilter cfg r) := by
  intro reads
  induction reads with
  | nil =>
    intro st
    simp [streamReads]
  | cons r rest ih =>
    intro st
    show (streamReads cfg rest (processRead cfg st r)).act_nlines = _
    rw [ih (processRead cfg st r), List.countP_cons]
    by_cases hpass : passesFilter cfg r
    · rw [processRead_passes cfg st r hpass]
      by_cases hz : (trimmedSeq cfg r).length = 0
      · rw [if_pos hz]
        simp only [hpass, if_true]
        show st.act_nlines + cfg.n + cfg.n * _ = _
        ring
      · rw [if_neg hz]
        unfold tallyRead
        simp only [hpass, if_true]
        show st.act_nlines + cfg.n + cfg.n * _ = _
        ring
    · have hp : passesFilter cfg r = false := by
        revert hpass
        cases passesFilter cfg r <;> simp
      rw [processRead_filtered cfg st r hp, hp]
      simp

/-- C7: with duplicate counting enabled, the duplicate counter after
the pass equals the number of retained reads whose trimmed sequence was
already a member of the duplicate set when tested, the reported rate is
that count divided by the processed-read counter act_nlines, and
act_nlines weighs each read surviving the filters by the stride. -/
theorem c7_duplicate_rate (cfg : Config) (reads : List Read)
    (hdup : cfg.count_duplicates = true) :
    (streamReads cfg reads initState).duplicates =
      specDupCount cfg reads [] ∧
    dupRateValue (streamReads cfg reads initState) =
      (specDupCount cfg reads [] : ℚ) /
        ((streamReads cfg reads initState).act_nlines : ℚ) ∧
    (streamReads cfg reads initState).act_nlines =
      cfg.n * reads.countP (fun r => passesFilter cfg r) := by
  have h := duplicates_streamReads cfg hdup reads initState []
    (by intro s; simp [initState])
  have hd : (streamReads cfg reads initState).duplicates =
      specDupCount cfg reads [] := by
    rw [h]
    simp [initState]
  refine ⟨hd, ?_, ?_⟩
  · unfold dupRateValue
    rw [hd]
  · rw [act_streamReads cfg reads initState]
    simp [initState]

/-- The default configuration with duplicate counting enabled. -/
def cfgDup : Config := { cfgDefault with count_duplicates := true }

/-- Two identical ACGT reads. -/
def readsDup : List Read := [fqACGT, fqACGT]

/-- C7 witness: two identical reads under duplicate counting give one
duplicate and the reported rate duplicates / act_nlines. -/
theorem c7_duplicate_rate_witness :
    (streamReads cfgDup readsDup initState).duplicates =
      specDupCount cfgDup readsDup [] ∧
    dupRateValue (streamReads cfgDup readsDup initState) =
      (specDupCount cfgDup readsDup [] : ℚ) /
        ((streamReads cfgDup readsDup initState).act_nlines : ℚ) ∧
    (streamReads cfgDup readsDup initState).act_nlines =
      cfgDup.n * readsDup.countP (fun r => passesFilter cfgDup r) :=
  c7_duplicate_rate cfgDup readsDup rfl

end Fastqp
